import Mathlib

/-!
Verification of the q40boot ATA/IDE disk driver (src/q40/ide.c, src/q40hw.c).

The driver is embedded shallowly:

* Machine integers are `Nat` with explicit `% 2^32` where 32-bit wraparound
  matters (the tick counter and the LBA loop variable are `uint32_t`).
* The memory-mapped status register is modelled as a status source
  `status : Nat → Nat` giving the byte returned by the i-th poll, and the
  tick counter as `clock : Nat → Nat` giving the tick value at the i-th
  loop-exit test.  The polling loop of `gogoboot_disk_wait` is written with
  structural fuel; a run that returns `none` did not terminate within the
  given fuel, and every theorem is stated about runs that return `some`.
* `gogoboot_disk_readwrite` is modelled as a trace-producing function: every
  hardware access (register write, status-wait, 512-byte data transfer) is
  recorded as an event.  The two waits inside the loop are abstracted by an
  oracle `Nat → Bool` giving the outcome of the n-th `gogoboot_disk_wait`
  call of the operation, in call order; the wait itself is verified
  separately against the status-source model.
* The 512-byte sector transfers are modelled at 16-bit word granularity
  (the C functions move exactly 256 words through the data register).
-/

/-! ### IDE constants (src/q40/ide.c lines 20-35) -/

def IDE_STATUS_BUSY : Nat := 0x80

def IDE_STATUS_READY : Nat := 0x40

def IDE_STATUS_DATAREQUEST : Nat := 0x08

def IDE_STATUS_ERROR : Nat := 0x01

def IDE_CMD_READ_SECTOR : Nat := 0x20

def IDE_CMD_WRITE_SECTOR : Nat := 0x30

/-! ### Timer collaborator (src/q40hw.c lines 77-98) -/

/-- Wraparound subtraction of two 32-bit tick values, as computed by the
`timer - q40_read_timer_ticks()` expression in `timer_expired`. -/
def timer_sub32 (a b : Nat) : Nat :=
  (a % 2 ^ 32 + (2 ^ 32 - b % 2 ^ 32)) % 2 ^ 32

/-- Model of `timer_expired` (src/q40hw.c line 95): the sign bit of the
wraparound-safe 32-bit subtraction `timer - now`. -/
def timer_expired (timer now : Nat) : Bool :=
  timer_sub32 timer now &&& 0x80000000 != 0

/-- Model of `set_timer_ticks` (src/q40hw.c line 82): duration 0 is rounded
up to one tick, durations with the sign bit set are clamped to `0x7fffffff`,
and the deadline is `now + duration` in 32-bit arithmetic. -/
def set_timer_ticks (now duration : Nat) : Nat :=
  let d := duration % 2 ^ 32
  let d' := if d = 0 then 1 else if d &&& 0x80000000 != 0 then 0x7FFFFFFF else d
  (now + d') % 2 ^ 32

/-- Modelled from the spec: `set_timer_sec` is not under src/ (only its
caller `gogoboot_disk_wait` is); per the spec it creates "a fixed deadline
(3 seconds of monotonic ticks)", i.e. `set_timer_ticks` applied to
`sec * TIMER_HZ` ticks, with the tick rate `hz` left as a parameter. -/
def set_timer_sec (now hz sec : Nat) : Nat :=
  set_timer_ticks now (sec * hz)

/-! ### Command-wait state machine (src/q40/ide.c lines 84-108) -/

/-- Success condition of the polling loop (ide.c line 97): the requested
bits are set and neither BUSY nor ERROR is set. -/
def waitSuccessCond (bits s : Nat) : Prop :=
  s &&& (IDE_STATUS_BUSY ||| IDE_STATUS_ERROR ||| bits) = bits

instance (bits s : Nat) : Decidable (waitSuccessCond bits s) := by
  unfold waitSuccessCond; infer_instance

/-- Error condition of the polling loop (ide.c lines 100-101): ERROR set
without BUSY, or the floating-bus patterns 0x00 / 0xFF. -/
def waitErrorCond (s : Nat) : Prop :=
  s &&& (IDE_STATUS_BUSY ||| IDE_STATUS_ERROR) = IDE_STATUS_ERROR ∨ s = 0x00 ∨ s = 0xFF

instance (s : Nat) : Decidable (waitErrorCond s) := by
  unfold waitErrorCond; infer_instance

inductive WaitOutcome
  | success
  | errorAbort
  | timeout
deriving DecidableEq

/-- Polling loop of `gogoboot_disk_wait` (ide.c lines 94-107), a do-while:
poll the status register (value `status i` on the i-th poll), return success
on `waitSuccessCond`, failure on `waitErrorCond`, otherwise loop until
`timer_expired deadline` holds against the tick value `clock i` read at the
i-th loop-exit test; on expiry return failure reporting the last status
read.  The result is the outcome, the index of the last poll, and the last
status value; `none` means the fuel ran out before the loop finished. -/
def gogoboot_disk_wait_loop (bits : Nat) (status clock : Nat → Nat)
    (deadline : Nat) : Nat → Nat → Option (WaitOutcome × Nat × Nat)
  | 0, _ => none
  | fuel + 1, i =>
    if waitSuccessCond bits (status i) then some (.success, i, status i)
    else if waitErrorCond (status i) then some (.errorAbort, i, status i)
    else if timer_expired deadline (clock i) then some (.timeout, i, status i)
    else gogoboot_disk_wait_loop bits status clock deadline fuel (i + 1)

/-- Model of `gogoboot_disk_wait` (ide.c lines 84-108): create the 3-second
deadline from the entry tick value `now0`, then run the polling loop.  The
initial throwaway read of the alternate-status register has no observable
effect in this model. -/
def gogoboot_disk_wait (bits : Nat) (status clock : Nat → Nat)
    (now0 hz fuel : Nat) : Option (WaitOutcome × Nat × Nat) :=
  gogoboot_disk_wait_loop bits status clock (set_timer_sec now0 hz 3) fuel 0

/-! ### Sector transfer (src/q40/ide.c lines 110-126) -/

/-- Byte swap of a 16-bit word (`__builtin_bswap16`): the low byte becomes
the high byte and vice versa. -/
def bswap16 (w : Nat) : Nat :=
  (w % 256) * 256 + (w / 256) % 256

/-- Model of `gogoboot_disk_read_sector_data` (ide.c lines 110-117): read
256 16-bit words from the data register (`dev i` is the i-th word the
device delivers), byte-swap each, and store them in order into the
buffer. -/
def gogoboot_disk_read_sector_data (dev : Nat → Nat) : List Nat :=
  (List.range 256).map fun i => bswap16 (dev i)

/-- Model of `gogoboot_disk_write_sector_data` (ide.c lines 119-126):
byte-swap each of the first 256 16-bit words of the buffer and write them
in order to the data register; the result is the word stream the device
receives. -/
def gogoboot_disk_write_sector_data (buf : Nat → Nat) : List Nat :=
  (List.range 256).map fun i => bswap16 (buf i)

/-- Byte stream of a list of 16-bit words in host (big-endian m68k) memory
order: each word contributes its high byte then its low byte. -/
def wordsToBytes (ws : List Nat) : List Nat :=
  ws.flatMap fun w => [w / 256 % 256, w % 256]

/-! ### IDENTIFY string extraction (src/q40/ide.c lines 200-220) -/

/-- Pair-decoding loop of `gogoboot_disk_read_name` (ide.c lines 208-212):
starting at `offset`, emit `id[offset+1]` then `id[offset]` and advance by
two while the remaining length is positive (it decreases by 2 per
iteration, so an odd length behaves like the next even length up, exactly
as the signed C loop counter does). -/
def readNamePairs (id : Nat → Nat) : Nat → Nat → List Nat
  | _, 0 => []
  | offset, 1 => [id (offset + 1), id offset]
  | offset, rem + 2 => id (offset + 1) :: id offset :: readNamePairs id (offset + 2) rem

/-- Right-trim helper: drop the longest suffix of bytes satisfying `p`,
the effect of the backwards-walking loop at ide.c lines 216-219. -/
def rtrim (p : Nat → Bool) (l : List Nat) : List Nat :=
  (l.reverse.dropWhile p).reverse

/-- Model of `gogoboot_disk_read_name` (ide.c lines 200-220): decode the
byte-swapped pairs, NUL-terminate, then strip trailing spaces by moving
the terminator (the C rtrim walks back from `strlen`).  The value is the
byte list of the resulting C string: the decoded bytes up to the first NUL
with trailing spaces removed. -/
def gogoboot_disk_read_name (id : Nat → Nat) (offset len : Nat) : List Nat :=
  rtrim (fun b => b == 32) ((readNamePairs id offset len).takeWhile fun b => b != 0)

/-! ### Device identification and disk registry (src/q40/ide.c lines 222-298) -/

/-- Registry entry for one discovered volume: the device-select discriminant
(0 = master, 1 = slave) and the capacity in sectors, the per-disk data of
`disk_table` that the identification flow fills in. -/
structure DiskEntry where
  disk : Nat
  sectors : Nat

/-- Little-endian 32-bit capacity field of the IDENTIFY page at byte offset
`ATA_ID_LBA_CAPACITY = 2*60 = 120` (ide.c line 263). -/
def identifyCapacity (buffer : Nat → Nat) : Nat :=
  buffer 120 + buffer 121 * 256 + buffer 122 * 65536 + buffer 123 * 16777216

/-- Model of `gogoboot_disk_table_init` (ide.c lines 222-298).  The two
`gogoboot_disk_wait` calls are abstracted by their outcomes `readyOk` and
`drqOk` (the wait itself is verified separately); `buffer` is the IDENTIFY
page as it sits in host memory after `gogoboot_disk_read_sector_data`; the
log output and the lazy `f_mount` request have no observable effect on the
registry and are dropped.  The result is the new registry (`disk_table`
together with `disk_table_used`, modelled as a list). -/
def gogoboot_disk_table_init (maxDisks disk : Nat) (readyOk drqOk : Bool)
    (buffer : Nat → Nat) (table : List DiskEntry) : List DiskEntry :=
  if 2 ≤ disk then table
  else if !readyOk then table
  else if !drqOk then table
  else if buffer 99 &&& 0x02 = 0 then table
  else if maxDisks ≤ table.length then table
  else table ++ [⟨disk, identifyCapacity buffer⟩]

/-! ### Chunked read/write orchestrator (src/q40/ide.c lines 133-198) -/

/-- Byte registers of one IDE controller written by the orchestrator. -/
inductive Reg
  | device
  | lbah
  | lbam
  | lbal
  | nsect
  | command
deriving DecidableEq

/-- Hardware-access events recorded by the orchestrator model: a byte
write to a command-block register, one `gogoboot_disk_wait` call with its
requested bits and outcome (each wait reads the status register), and one
512-byte sector transfer on the data register. -/
inductive Ev
  | wr (r : Reg) (v : Nat)
  | waited (bits : Nat) (ok : Bool)
  | xfer (isWrite : Bool)
deriving DecidableEq

/-- Inner per-sector loop of `gogoboot_disk_readwrite` (ide.c lines
174-184): for each of the `nsect` sectors wait for DATAREQUEST (outcome
`oracle widx` for the widx-th wait of the whole operation) and on success
transfer one sector; a failed wait aborts immediately.  Returns the
success flag, the event trace, and the next wait index. -/
def sectorLoop (isWrite : Bool) (oracle : Nat → Bool) :
    Nat → Nat → Bool × List Ev × Nat
  | widx, 0 => (true, [], widx)
  | widx, nsect + 1 =>
    if oracle widx then
      let r := sectorLoop isWrite oracle (widx + 1) nsect
      (r.1, Ev.waited IDE_STATUS_DATAREQUEST true :: Ev.xfer isWrite :: r.2.1, r.2.2)
    else (false, [Ev.waited IDE_STATUS_DATAREQUEST false], widx + 1)

/-- Outer while loop of `gogoboot_disk_readwrite` (ide.c lines 147-185),
written with structural fuel; each iteration consumes at least one sector,
so any fuel at least the remaining sector count gives the loop's exact
behaviour, and the top level passes exactly the sector count.  Per chunk:
program the device-select byte (high LBA nibble OR the disk's select
base) and the three LBA byte registers from the 32-bit loop variable
`sector`, compute `nsect` (256 if at least 256 sectors remain, else the
remainder), advance the loop variables, program the sector-count register
(256 encoded as 0), wait for READY, issue the command byte, then run the
per-sector loop; any failed wait aborts the whole operation with result
`false`. -/
def rwChunks (dsel : Nat) (isWrite : Bool) (oracle : Nat → Bool) :
    Nat → Nat → Nat → Nat → Bool × List Ev × Nat
  | 0, _, _, widx => (true, [], widx)
  | fuel + 1, sector, count, widx =>
    if count = 0 then (true, [], widx)
    else
      let nsect := if 256 ≤ count then 256 else count
      let head : List Ev :=
        [Ev.wr .device (((sector >>> 24) &&& 0x0F) ||| dsel),
         Ev.wr .lbah ((sector >>> 16) &&& 0xFF),
         Ev.wr .lbam ((sector >>> 8) &&& 0xFF),
         Ev.wr .lbal (sector &&& 0xFF),
         Ev.wr .nsect (if nsect = 256 then 0 else nsect)]
      if oracle widx then
        let inner := sectorLoop isWrite oracle (widx + 1) nsect
        let mid := Ev.waited IDE_STATUS_READY true ::
          Ev.wr .command (if isWrite then IDE_CMD_WRITE_SECTOR else IDE_CMD_READ_SECTOR) ::
          inner.2.1
        if inner.1 then
          let rest := rwChunks dsel isWrite oracle fuel ((sector + nsect) % 2 ^ 32)
            (count - nsect) inner.2.2
          (rest.1, head ++ mid ++ rest.2.1, rest.2.2)
        else (false, head ++ mid, inner.2.2)
      else (false, head ++ [Ev.waited IDE_STATUS_READY false], widx + 1)

/-- Model of `gogoboot_disk_readwrite` (ide.c lines 133-188).  The disk
registry is abstracted to its size `ndisks` (`disk_table_used`) and the
per-index device-select discriminant `diskSel` (the `disk` field of the
entry); `disknr` and `sector_count` are signed ints as in C and `sector`
is the 32-bit start LBA.  Returns the C function's boolean result and the
trace of hardware accesses: an out-of-range disk number fails before any
register is touched, and a non-positive sector count makes the while loop
run zero times (immediate success, no register touched). -/
def gogoboot_disk_readwrite (ndisks : Nat) (diskSel : Nat → Nat) (disknr : Int)
    (sector : Nat) (sector_count : Int) (isWrite : Bool) (oracle : Nat → Bool) :
    Bool × List Ev :=
  if disknr < 0 ∨ (ndisks : Int) ≤ disknr then (false, [])
  else
    let dsel := if diskSel disknr.toNat = 0 then 0xE0 else 0xF0
    let r := rwChunks dsel isWrite oracle sector_count.toNat (sector % 2 ^ 32)
      sector_count.toNat 0
    (r.1, r.2.1)

/-- Model of `gogoboot_disk_read` (ide.c lines 190-193). -/
def gogoboot_disk_read (ndisks : Nat) (diskSel : Nat → Nat) (disknr : Int)
    (sector : Nat) (sector_count : Int) (oracle : Nat → Bool) : Bool × List Ev :=
  gogoboot_disk_readwrite ndisks diskSel disknr sector sector_count false oracle

/-- Model of `gogoboot_disk_write` (ide.c lines 195-198). -/
def gogoboot_disk_write (ndisks : Nat) (diskSel : Nat → Nat) (disknr : Int)
    (sector : Nat) (sector_count : Int) (oracle : Nat → Bool) : Bool × List Ev :=
  gogoboot_disk_readwrite ndisks diskSel disknr sector sector_count true oracle

/-- Event trace of a `gogoboot_disk_readwrite` call. -/
def rwTrace (ndisks : Nat) (diskSel : Nat → Nat) (disknr : Int)
    (sector : Nat) (sector_count : Int) (isWrite : Bool) (oracle : Nat → Bool) :
    List Ev :=
  (gogoboot_disk_readwrite ndisks diskSel disknr sector sector_count isWrite oracle).2

/-- Chunk decomposition performed by the loop-variable arithmetic of
`gogoboot_disk_readwrite`: the (sector, nsect) pair of each iteration of
the outer loop. -/
def chunkPairs : Nat → Nat → Nat → List (Nat × Nat)
  | 0, _, _ => []
  | fuel + 1, sector, count =>
    if count = 0 then []
    else
      let nsect := if 256 ≤ count then 256 else count
      (sector, nsect) :: chunkPairs fuel ((sector + nsect) % 2 ^ 32) (count - nsect)

/-- Events of one fully successful chunk of `gogoboot_disk_readwrite`. -/
def chunkEvs (dsel : Nat) (isWrite : Bool) (p : Nat × Nat) : List Ev :=
  [Ev.wr .device (((p.1 >>> 24) &&& 0x0F) ||| dsel),
   Ev.wr .lbah ((p.1 >>> 16) &&& 0xFF),
   Ev.wr .lbam ((p.1 >>> 8) &&& 0xFF),
   Ev.wr .lbal (p.1 &&& 0xFF),
   Ev.wr .nsect (if p.2 = 256 then 0 else p.2),
   Ev.waited IDE_STATUS_READY true,
   Ev.wr .command (if isWrite then IDE_CMD_WRITE_SECTOR else IDE_CMD_READ_SECTOR)] ++
  (List.replicate p.2 [Ev.waited IDE_STATUS_DATAREQUEST true, Ev.xfer isWrite]).flatten

/-- Value a fully successful chunk writes to each byte register. -/
def chunkRegVal (dsel : Nat) (isWrite : Bool) : Reg → Nat × Nat → Nat
  | .device, p => ((p.1 >>> 24) &&& 0x0F) ||| dsel
  | .lbah, p => (p.1 >>> 16) &&& 0xFF
  | .lbam, p => (p.1 >>> 8) &&& 0xFF
  | .lbal, p => p.1 &&& 0xFF
  | .nsect, p => if p.2 = 256 then 0 else p.2
  | .command, _ => if isWrite then IDE_CMD_WRITE_SECTOR else IDE_CMD_READ_SECTOR

/-- Number of waits a chunk list consumes: one READY wait plus one
DATAREQUEST wait per sector. -/
def waitTally (l : List (Nat × Nat)) : Nat :=
  (l.map fun p => p.2 + 1).sum

/-- Values written to register `r`, in order, in a trace. -/
def wrVals (r : Reg) (tr : List Ev) : List Nat :=
  tr.filterMap fun e =>
    match e with
    | .wr r' v => if r' = r then some v else none
    | _ => none

/-- Number of sector transfers in a trace. -/
def xferCount (tr : List Ev) : Nat :=
  (tr.filter fun e => match e with | .xfer _ => true | _ => false).length

/-- The 28-bit LBAs programmed by a trace, reconstructed from the low
nibble of each device-select write and the three LBA byte writes. -/
def lbasOf (tr : List Ev) : List Nat :=
  List.zipWith (fun d r => (d &&& 0x0F) * 2 ^ 24 + r) (wrVals .device tr)
    (List.zipWith (fun h r => h * 2 ^ 16 + r) (wrVals .lbah tr)
      (List.zipWith (fun m l => m * 2 ^ 8 + l) (wrVals .lbam tr) (wrVals .lbal tr)))

/-- Decoding of the sector-count register convention (0 encodes 256). -/
def decodeNsect (v : Nat) : Nat :=
  if v = 0 then 256 else v

/-- Shape of an aborted operation's trace: it ends with the failed wait
that aborted it, and no earlier wait in it failed — in particular nothing
at all (no command write, no transfer) happens after the failed wait. -/
def endsWithFailedWait (tr : List Ev) : Prop :=
  ∃ tr' b, tr = tr' ++ [Ev.waited b false] ∧ ∀ b', Ev.waited b' false ∉ tr'

/-! ### Theorems for the command-wait state machine -/

/-- Helper: full characterisation of a terminating run of the polling loop
started at poll index `i`. -/
theorem wait_loop_spec (bits : Nat) (status clock : Nat → Nat)
    (deadline : Nat) :
    ∀ fuel i r j s,
      gogoboot_disk_wait_loop bits status clock deadline fuel i = some (r, j, s) →
      i ≤ j ∧ s = status j ∧
      (r = .success ↔ waitSuccessCond bits (status j)) ∧
      (r = .errorAbort ↔ ¬waitSuccessCond bits (status j) ∧ waitErrorCond (status j)) ∧
      (∀ k, i ≤ k → k < j → ¬waitSuccessCond bits (status k) ∧ ¬waitErrorCond (status k)) := by
  intro fuel
  induction fuel with
  | zero => intro i r j s h; simp [gogoboot_disk_wait_loop] at h
  | succ fuel ih =>
    intro i r j s h
    rw [gogoboot_disk_wait_loop] at h
    by_cases hs : waitSuccessCond bits (status i)
    · rw [if_pos hs] at h
      obtain ⟨hr, hj, hst⟩ : WaitOutcome.success = r ∧ i = j ∧ status i = s := by
        simpa [Prod.ext_iff] using h
      subst hr; subst hj; subst hst
      refine ⟨Nat.le_refl _, rfl, iff_of_true rfl hs, ?_, ?_⟩
      · exact iff_of_false (by simp) (fun hc => hc.1 hs)
      · intro k hk1 hk2; omega
    · rw [if_neg hs] at h
      by_cases he : waitErrorCond (status i)
      · rw [if_pos he] at h
        obtain ⟨hr, hj, hst⟩ : WaitOutcome.errorAbort = r ∧ i = j ∧ status i = s := by
          simpa [Prod.ext_iff] using h
        subst hr; subst hj; subst hst
        refine ⟨Nat.le_refl _, rfl, iff_of_false (by simp) hs, iff_of_true rfl ⟨hs, he⟩, ?_⟩
        intro k hk1 hk2; omega
      · rw [if_neg he] at h
        by_cases ht : timer_expired deadline (clock i)
        · rw [if_pos ht] at h
          obtain ⟨hr, hj, hst⟩ : WaitOutcome.timeout = r ∧ i = j ∧ status i = s := by
            simpa [Prod.ext_iff] using h
          subst hr; subst hj; subst hst
          refine ⟨Nat.le_refl _, rfl, iff_of_false (by simp) hs,
            iff_of_false (by simp) (fun hc => he hc.2), ?_⟩
          intro k hk1 hk2; omega
        · rw [if_neg ht] at h
          obtain ⟨hij, hst, hiff1, hiff2, hk⟩ := ih (i + 1) r j s h
          refine ⟨by omega, hst, hiff1, hiff2, ?_⟩
          intro k hk1 hk2
          rcases Nat.eq_or_lt_of_le hk1 with heq | hlt
          · exact heq ▸ ⟨hs, he⟩
          · exact hk k hlt hk2

/-- Helper: with a status source that never satisfies the success condition
and never satisfies the error condition, a terminating run of the polling
loop times out exactly at the first loop-exit test whose tick value shows
the deadline expired. -/
theorem wait_loop_timeout_spec (bits : Nat) (status clock : Nat → Nat)
    (deadline : Nat)
    (hns : ∀ i, ¬waitSuccessCond bits (status i))
    (hne : ∀ i, ¬waitErrorCond (status i)) :
    ∀ fuel i r j s,
      gogoboot_disk_wait_loop bits status clock deadline fuel i = some (r, j, s) →
      i ≤ j ∧ r = .timeout ∧ s = status j ∧
      timer_expired deadline (clock j) = true ∧
      (∀ k, i ≤ k → k < j → timer_expired deadline (clock k) = false) := by
  intro fuel
  induction fuel with
  | zero => intro i r j s h; simp [gogoboot_disk_wait_loop] at h
  | succ fuel ih =>
    intro i r j s h
    rw [gogoboot_disk_wait_loop, if_neg (hns i), if_neg (hne i)] at h
    by_cases ht : timer_expired deadline (clock i)
    · rw [if_pos ht] at h
      obtain ⟨hr, hj, hst⟩ : WaitOutcome.timeout = r ∧ i = j ∧ status i = s := by
        simpa [Prod.ext_iff] using h
      subst hr; subst hj; subst hst
      exact ⟨Nat.le_refl _, rfl, rfl, ht, fun k hk1 hk2 => absurd hk2 (by omega)⟩
    · rw [if_neg ht] at h
      obtain ⟨hij, hr, hst, hexp, hk⟩ := ih (i + 1) r j s h
      refine ⟨by omega, hr, hst, hexp, ?_⟩
      intro k hk1 hk2
      rcases Nat.eq_or_lt_of_le hk1 with heq | hlt
      · exact heq ▸ Bool.of_not_eq_true ht
      · exact hk k hlt hk2

/-- C3: for every requested bit mask and every status-register sequence, a
terminating `gogoboot_disk_wait` run returns success exactly when the final
polled value has the requested bits set with neither BUSY nor ERROR set
(`status & (BUSY|ERROR|bits) == bits`), returns the error failure exactly
when the final polled value shows `status & (BUSY|ERROR) == ERROR` or is
0x00 or 0xFF (without satisfying the success condition, which the code
tests first), and no earlier polled value satisfies either condition —
i.e. the loop stops at the first deciding poll, with no further polling. -/
theorem disk_wait_success_error_classification
    (bits : Nat) (status clock : Nat → Nat) (now0 hz fuel : Nat)
    (r : WaitOutcome) (j s : Nat)
    (h : gogoboot_disk_wait bits status clock now0 hz fuel = some (r, j, s)) :
    s = status j ∧
    (r = .success ↔ waitSuccessCond bits (status j)) ∧
    (r = .errorAbort ↔ ¬waitSuccessCond bits (status j) ∧ waitErrorCond (status j)) ∧
    (∀ k, k < j → ¬waitSuccessCond bits (status k) ∧ ¬waitErrorCond (status k)) := by
  obtain ⟨_, hst, h1, h2, hk⟩ :=
    wait_loop_spec bits status clock (set_timer_sec now0 hz 3) fuel 0 r j s h
  exact ⟨hst, h1, h2, fun k hkj => hk k (Nat.zero_le k) hkj⟩

/-- Witness for C3: with the status source constantly 0x40 (READY, not
BUSY, no ERROR) and `bits = READY`, the wait succeeds on the first poll. -/
theorem disk_wait_success_error_classification_witness :
    (gogoboot_disk_wait IDE_STATUS_READY (fun _ => 0x40) (fun _ => 0) 0 50 5 =
      some (.success, 0, 0x40)) ∧
    ((WaitOutcome.success = .success ↔ waitSuccessCond IDE_STATUS_READY 0x40) ∧
      (WaitOutcome.success = .errorAbort ↔
        ¬waitSuccessCond IDE_STATUS_READY 0x40 ∧ waitErrorCond 0x40) ∧
      (∀ k, k < 0 → ¬waitSuccessCond IDE_STATUS_READY 0x40 ∧ ¬waitErrorCond 0x40)) :=
  ⟨by decide,
    (disk_wait_success_error_classification IDE_STATUS_READY (fun _ => 0x40)
      (fun _ => 0) 0 50 5 .success 0 0x40 (by decide)).2⟩

/-- C4: if the status source never asserts the requested bits and never
shows an error pattern, a terminating `gogoboot_disk_wait` run fails with a
timeout, reporting the last observed status value, and it stops exactly at
the first loop-exit test at which the 3-second deadline created at entry
(`set_timer_sec now0 hz 3`) has expired — no earlier (every previous test
saw the deadline unexpired) and no later than one polling interval after
expiry; expiry is the sign bit of the wraparound-safe 32-bit subtraction
`deadline - now` (`timer_expired`). -/
theorem disk_wait_timeout_at_deadline
    (bits : Nat) (status clock : Nat → Nat) (now0 hz fuel : Nat)
    (r : WaitOutcome) (j s : Nat)
    (hns : ∀ i, ¬waitSuccessCond bits (status i))
    (hne : ∀ i, ¬waitErrorCond (status i))
    (h : gogoboot_disk_wait bits status clock now0 hz fuel = some (r, j, s)) :
    r = .timeout ∧ s = status j ∧
    timer_expired (set_timer_sec now0 hz 3) (clock j) = true ∧
    (∀ k, k < j → timer_expired (set_timer_sec now0 hz 3) (clock k) = false) := by
  obtain ⟨_, hr, hst, hexp, hk⟩ :=
    wait_loop_timeout_spec bits status clock (set_timer_sec now0 hz 3) hns hne
      fuel 0 r j s h
  exact ⟨hr, hst, hexp, fun k hkj => hk k (Nat.zero_le k) hkj⟩

/-- Witness for C4: a permanently BUSY status source (0x80) with tick rate
50 Hz; the deadline is tick 150 and the clock advances 100 ticks per poll,
so the run times out at the second loop-exit test (poll index 2 is never
reached: expiry is first observed at test index 2 after polls 0 and 1 saw
the deadline unexpired). -/
theorem disk_wait_timeout_at_deadline_witness :
    (gogoboot_disk_wait IDE_STATUS_READY (fun _ => 0x80) (fun i => 100 * i) 0 50 5 =
      some (.timeout, 2, 0x80)) ∧
    (WaitOutcome.timeout = .timeout ∧ (0x80 : Nat) = 0x80 ∧
      timer_expired (set_timer_sec 0 50 3) (100 * 2) = true ∧
      (∀ k, k < 2 → timer_expired (set_timer_sec 0 50 3) (100 * k) = false)) :=
  ⟨by decide,
    (disk_wait_timeout_at_deadline IDE_STATUS_READY (fun _ => 0x80)
      (fun i => 100 * i) 0 50 5 .timeout 2 0x80
      (fun _ => (by decide : ¬waitSuccessCond IDE_STATUS_READY 0x80))
      (fun _ => (by decide : ¬waitErrorCond 0x80)) (by decide))⟩

/-! ### Theorems for the sector transfer -/

/-- Helper: a list of 16-bit words occupies exactly two bytes per word. -/
theorem wordsToBytes_length (ws : List Nat) :
    (wordsToBytes ws).length = 2 * ws.length := by
  induction ws with
  | nil => rfl
  | cons w ws ih => simp only [wordsToBytes, List.flatMap_cons] at *; simp [ih]; omega

/-- C6: each sector-data routine moves exactly 256 16-bit words (512 bytes)
per call, byte-swapping every word; the 16-bit byte swap is self-inverse,
and therefore writing any 512-byte buffer (256 words, each below 2^16)
through `gogoboot_disk_write_sector_data` and reading the resulting device
word stream back through `gogoboot_disk_read_sector_data` yields the
original buffer, byte for byte. -/
theorem sector_data_roundtrip (dev buf : Nat → Nat)
    (hbuf : ∀ i, buf i < 65536) :
    (gogoboot_disk_read_sector_data dev).length = 256 ∧
    (wordsToBytes (gogoboot_disk_read_sector_data dev)).length = 512 ∧
    (gogoboot_disk_write_sector_data buf).length = 256 ∧
    (wordsToBytes (gogoboot_disk_write_sector_data buf)).length = 512 ∧
    (∀ w, w < 65536 → bswap16 (bswap16 w) = w) ∧
    gogoboot_disk_read_sector_data
        (fun i => (gogoboot_disk_write_sector_data buf).getD i 0) =
      (List.range 256).map buf ∧
    wordsToBytes (gogoboot_disk_read_sector_data
        (fun i => (gogoboot_disk_write_sector_data buf).getD i 0)) =
      wordsToBytes ((List.range 256).map buf) := by
  have hswap : ∀ w, w < 65536 → bswap16 (bswap16 w) = w := by
    intro w hw
    unfold bswap16
    have h1 : (w % 256 * 256 + w / 256 % 256) % 256 = w / 256 % 256 := by omega
    have h2 : (w % 256 * 256 + w / 256 % 256) / 256 = w % 256 := by omega
    rw [h1, h2]
    omega
  have hlen1 : (gogoboot_disk_read_sector_data dev).length = 256 := by
    simp [gogoboot_disk_read_sector_data]
  have hlen2 : (gogoboot_disk_write_sector_data buf).length = 256 := by
    simp [gogoboot_disk_write_sector_data]
  have hrt : gogoboot_disk_read_sector_data
      (fun i => (gogoboot_disk_write_sector_data buf).getD i 0) =
      (List.range 256).map buf := by
    unfold gogoboot_disk_read_sector_data
    apply List.map_congr_left
    intro i hi
    have hi' : i < 256 := List.mem_range.mp hi
    have hget : (gogoboot_disk_write_sector_data buf).getD i 0 = bswap16 (buf i) := by
      unfold gogoboot_disk_write_sector_data
      rw [List.getD_eq_getElem?_getD, List.getElem?_map, List.getElem?_range hi']
      rfl
    show bswap16 ((gogoboot_disk_write_sector_data buf).getD i 0) = buf i
    rw [hget, hswap (buf i) (hbuf i)]
  refine ⟨hlen1, by rw [wordsToBytes_length, hlen1], hlen2,
    by rw [wordsToBytes_length, hlen2], hswap, hrt, congrArg wordsToBytes hrt⟩

/-- Witness for C6: round trip of the concrete buffer whose i-th word is
`i % 65536`. -/
theorem sector_data_roundtrip_witness :
    gogoboot_disk_read_sector_data
        (fun i => (gogoboot_disk_write_sector_data (fun i => i % 65536)).getD i 0) =
      (List.range 256).map (fun i => i % 65536) :=
  (sector_data_roundtrip (fun i => i) (fun i => i % 65536)
    (fun i => Nat.mod_lt i (by decide))).2.2.2.2.2.1

/-! ### Theorems for the IDENTIFY string extraction -/

/-- Helper: closed form of the pair-decoding loop for an even length. -/
theorem readNamePairs_closed (id : Nat → Nat) :
    ∀ n offset, readNamePairs id offset (2 * n) =
      (List.range n).flatMap fun k => [id (offset + 2 * k + 1), id (offset + 2 * k)] := by
  intro n
  induction n with
  | zero => intro offset; rfl
  | succ n ih =>
    intro offset
    have h2 : 2 * (n + 1) = 2 * n + 2 := by ring
    rw [h2]
    simp only [readNamePairs]
    rw [ih (offset + 2), List.range_succ_eq_map, List.flatMap_cons]
    have hfun : (fun k => [id (offset + 2 + 2 * k + 1), id (offset + 2 + 2 * k)]) =
        (fun k => [id (offset + 2 * (k + 1) + 1), id (offset + 2 * (k + 1))]) := by
      funext k
      have e1 : offset + 2 + 2 * k + 1 = offset + 2 * (k + 1) + 1 := by ring
      have e2 : offset + 2 + 2 * k = offset + 2 * (k + 1) := by ring
      rw [e1, e2]
    rw [hfun]
    simp [List.flatMap_map, Function.comp_def]

/-- C7: for every IDENTIFY buffer, field offset and even field length,
`gogoboot_disk_read_name` decodes the field by emitting each successive
byte pair as (second byte, first byte), terminates the string, and strips
all trailing spaces from the end of the decoded (NUL-terminated C) string;
when the decoded field contains no NUL byte this is exactly the trailing
space stripping of the whole decoded field. -/
theorem read_name_swaps_pairs_and_trims (id : Nat → Nat) (offset len : Nat)
    (hlen : len % 2 = 0) :
    gogoboot_disk_read_name id offset len =
      rtrim (fun b => b == 32)
        (((List.range (len / 2)).flatMap fun k =>
          [id (offset + 2 * k + 1), id (offset + 2 * k)]).takeWhile fun b => b != 0) ∧
    ((∀ b ∈ readNamePairs id offset len, b ≠ 0) →
      gogoboot_disk_read_name id offset len =
        rtrim (fun b => b == 32) ((List.range (len / 2)).flatMap fun k =>
          [id (offset + 2 * k + 1), id (offset + 2 * k)])) := by
  obtain ⟨n, rfl⟩ : ∃ n, len = 2 * n := ⟨len / 2, by omega⟩
  have hcf := readNamePairs_closed id n offset
  constructor
  · unfold gogoboot_disk_read_name
    rw [hcf, show 2 * n / 2 = n from by omega]
  · intro hnz
    unfold gogoboot_disk_read_name
    have ht : (readNamePairs id offset (2 * n)).takeWhile (fun b => b != 0) =
        readNamePairs id offset (2 * n) := by
      apply List.takeWhile_eq_self_iff.mpr
      intro b hb
      simpa using hnz b hb
    rw [ht, hcf, show 2 * n / 2 = n from by omega]

/-- Witness for C7: the byte-swapped-pair encoding of the 14-byte field
value SAMPLE DISK followed by three spaces decodes to the byte string of
SAMPLE DISK, trailing spaces removed, interior space preserved. -/
theorem read_name_swaps_pairs_and_trims_witness :
    gogoboot_disk_read_name
        (fun i => [65, 83, 80, 77, 69, 76, 68, 32, 83, 73, 32, 75, 32, 32].getD i 0) 0 14 =
      [83, 65, 77, 80, 76, 69, 32, 68, 73, 83, 75] :=
  ((read_name_swaps_pairs_and_trims
    (fun i => [65, 83, 80, 77, 69, 76, 68, 32, 83, 73, 32, 75, 32, 32].getD i 0) 0 14
    (by decide)).2 (by decide)).trans (by decide)

/-! ### Theorems for device identification -/

/-- C9: if bit 1 of byte offset 99 of the IDENTIFY buffer is clear, the
device is rejected: `gogoboot_disk_table_init` returns the registry
unchanged — no entry is appended, the disk count is unchanged and every
existing entry is unchanged. -/
theorem table_init_rejects_non_lba (maxDisks disk : Nat) (readyOk drqOk : Bool)
    (buffer : Nat → Nat) (table : List DiskEntry)
    (hbit : buffer 99 &&& 0x02 = 0) :
    gogoboot_disk_table_init maxDisks disk readyOk drqOk buffer table = table ∧
    (gogoboot_disk_table_init maxDisks disk readyOk drqOk buffer table).length =
      table.length := by
  have h : gogoboot_disk_table_init maxDisks disk readyOk drqOk buffer table = table := by
    unfold gogoboot_disk_table_init
    split_ifs <;> rfl
  exact ⟨h, by rw [h]⟩

/-- Witness for C9: an all-zero IDENTIFY buffer (byte 99 is 0, so bit 1 is
clear) leaves a one-entry registry untouched. -/
theorem table_init_rejects_non_lba_witness :
    gogoboot_disk_table_init 4 0 true true (fun _ => 0) [⟨0, 1234⟩] = [⟨0, 1234⟩] :=
  (table_init_rejects_non_lba 4 0 true true (fun _ => 0) [⟨0, 1234⟩] (by decide)).1

/-! ### Helper lemmas for the orchestrator -/

/-- Helper: with every wait succeeding, the per-sector loop transfers all
`nsect` sectors and consumes `nsect` waits. -/
theorem sectorLoop_all_ok (isWrite : Bool) (oracle : Nat → Bool)
    (hok : ∀ n, oracle n = true) :
    ∀ nsect widx, sectorLoop isWrite oracle widx nsect =
      (true,
        (List.replicate nsect [Ev.waited IDE_STATUS_DATAREQUEST true, Ev.xfer isWrite]).flatten,
        widx + nsect) := by
  intro nsect
  induction nsect with
  | zero => intro widx; simp [sectorLoop]
  | succ n ih =>
    intro widx
    simp only [sectorLoop, hok widx, if_true]
    rw [ih (widx + 1)]
    simp [List.replicate_succ, Prod.ext_iff]
    omega

/-- Helper: the empty chunk decomposition. -/
theorem chunkPairs_zero : ∀ fuel sector, chunkPairs fuel sector 0 = [] := by
  intro fuel sector
  cases fuel <;> simp [chunkPairs]

/-- Helper: with every wait succeeding and enough fuel, the outer loop
succeeds and its trace is the concatenation of the per-chunk event lists
over the chunk decomposition. -/
theorem rwChunks_all_ok (dsel : Nat) (isWrite : Bool) (oracle : Nat → Bool)
    (hok : ∀ n, oracle n = true) :
    ∀ fuel sector count widx, count ≤ fuel →
      rwChunks dsel isWrite oracle fuel sector count widx =
        (true, ((chunkPairs fuel sector count).map (chunkEvs dsel isWrite)).flatten,
          widx + waitTally (chunkPairs fuel sector count)) := by
  intro fuel
  induction fuel with
  | zero =>
    intro sector count widx hc
    have h0 : count = 0 := Nat.le_zero.mp hc
    subst h0
    simp [rwChunks, chunkPairs, waitTally]
  | succ fuel ih =>
    intro sector count widx hc
    by_cases h0 : count = 0
    · subst h0
      simp [rwChunks, chunkPairs, waitTally]
    · have hns : 1 ≤ (if 256 ≤ count then 256 else count) := by
        split <;> omega
      have hns' : (if 256 ≤ count then 256 else count) ≤ count := by
        split <;> omega
      simp only [rwChunks, chunkPairs, h0, if_neg h0, hok, if_true]
      rw [sectorLoop_all_ok isWrite oracle hok]
      simp only []
      rw [ih ((sector + (if 256 ≤ count then 256 else count)) % 2 ^ 32)
        (count - (if 256 ≤ count then 256 else count))
        (widx + 1 + (if 256 ≤ count then 256 else count)) (by omega)]
      simp [chunkEvs, waitTally, Prod.ext_iff, List.append_assoc]
      omega

/-- Helper: closed form of the chunk decomposition. -/
theorem chunkPairs_closed :
    ∀ fuel count sector, count ≤ fuel → sector < 2 ^ 32 →
      chunkPairs fuel sector count =
        (List.range ((count + 255) / 256)).map fun k =>
          ((sector + 256 * k) % 2 ^ 32, min (count - 256 * k) 256) := by
  intro fuel
  induction fuel with
  | zero =>
    intro count sector hc _
    have h0 : count = 0 := Nat.le_zero.mp hc
    subst h0
    simp [chunkPairs]
  | succ fuel ih =>
    intro count sector hc hs
    by_cases h0 : count = 0
    · subst h0; simp [chunkPairs]
    · rcases Nat.lt_or_ge count 257 with hle | hgt
      · have hn : (if 256 ≤ count then 256 else count) = count := by split <;> omega
        have h1 : (count + 255) / 256 = 1 := by omega
        simp only [chunkPairs, if_neg h0, hn]
        rw [Nat.sub_self, chunkPairs_zero, h1, show List.range 1 = [0] from rfl]
        simp [Nat.mod_eq_of_lt hs]
        omega
      · have hn : (if 256 ≤ count then 256 else count) = 256 := by split <;> omega
        have hmod : (sector + 256) % 2 ^ 32 < 2 ^ 32 := Nat.mod_lt _ (by norm_num)
        have hrec := ih (count - 256) ((sector + 256) % 2 ^ 32) (by omega) hmod
        simp only [chunkPairs, if_neg h0, hn]
        rw [hrec]
        have hnn : (count + 255) / 256 = (count - 256 + 255) / 256 + 1 := by omega
        rw [hnn, List.range_succ_eq_map, List.map_cons, List.map_map]
        simp only [List.cons.injEq]
        refine ⟨?_, ?_⟩
        · simp [Nat.mod_eq_of_lt hs]
          omega
        · apply List.map_congr_left
          intro k _
          simp only [Function.comp_apply, Prod.mk.injEq]
          refine ⟨?_, by omega⟩
          rw [Nat.mod_add_mod]
          congr 1
          omega

/-- Helper: the chunk sizes sum to the requested sector count. -/
theorem chunkPairs_sum :
    ∀ fuel count sector, count ≤ fuel →
      ((chunkPairs fuel sector count).map Prod.snd).sum = count := by
  intro fuel
  induction fuel with
  | zero =>
    intro count sector hc
    have h0 : count = 0 := Nat.le_zero.mp hc
    subst h0
    simp [chunkPairs]
  | succ fuel ih =>
    intro count sector hc
    by_cases h0 : count = 0
    · subst h0; simp [chunkPairs]
    · simp only [chunkPairs, if_neg h0, List.map_cons, List.sum_cons]
      rw [ih (count - (if 256 ≤ count then 256 else count))
        ((sector + (if 256 ≤ count then 256 else count)) % 2 ^ 32) (by split <;> omega)]
      split <;> omega

/-- Helper: every chunk size is between 1 and 256. -/
theorem chunkPairs_size_bounds :
    ∀ fuel count sector p, p ∈ chunkPairs fuel sector count → 0 < p.2 ∧ p.2 ≤ 256 := by
  intro fuel
  induction fuel with
  | zero => intro count sector p hp; simp [chunkPairs] at hp
  | succ fuel ih =>
    intro count sector p hp
    by_cases h0 : count = 0
    · subst h0; simp [chunkPairs] at hp
    · simp only [chunkPairs, if_neg h0, List.mem_cons] at hp
      rcases hp with rfl | hp
      · show 0 < (if 256 ≤ count then 256 else count) ∧
          (if 256 ≤ count then 256 else count) ≤ 256
        split <;> omega
      · exact ih _ _ p hp

/-- Helper: within the 28-bit LBA range, the chunks of the decomposition
cover the remaining interval contiguously, with no gaps and no overlaps. -/
theorem chunkPairs_cover :
    ∀ fuel count sector, count ≤ fuel → sector + count ≤ 2 ^ 28 →
      ((chunkPairs fuel sector count).flatMap fun p => (List.range p.2).map (p.1 + ·)) =
        (List.range count).map (sector + ·) := by
  intro fuel
  induction fuel with
  | zero =>
    intro count sector hc _
    have h0 : count = 0 := Nat.le_zero.mp hc
    subst h0
    simp [chunkPairs]
  | succ fuel ih =>
    intro count sector hc hs
    by_cases h0 : count = 0
    · subst h0; simp [chunkPairs]
    · obtain ⟨nsect, hnsect, hn1, hn2⟩ :
          ∃ m, (if 256 ≤ count then 256 else count) = m ∧ 1 ≤ m ∧ m ≤ count :=
        ⟨_, rfl, by split <;> omega, by split <;> omega⟩
      simp only [chunkPairs, if_neg h0, hnsect, List.flatMap_cons]
      have hmod : (sector + nsect) % 2 ^ 32 = sector + nsect :=
        Nat.mod_eq_of_lt (by omega)
      rw [hmod, ih (count - nsect) (sector + nsect) (by omega) (by omega)]
      have hsplit : count = nsect + (count - nsect) := by omega
      conv_rhs => rw [hsplit]
      rw [List.range_add, List.map_append, List.map_map]
      congr 1
      apply List.map_congr_left
      intro k _
      simp only [Function.comp_apply]
      omega

/-- Helper: the DATAREQUEST/transfer block of a chunk contains no register
writes. -/
theorem wrVals_drq_flatten (r : Reg) (isWrite : Bool) :
    ∀ n, wrVals r
      ((List.replicate n [Ev.waited IDE_STATUS_DATAREQUEST true, Ev.xfer isWrite]).flatten) = [] := by
  intro n
  induction n with
  | zero => rfl
  | succ n ih =>
    simp only [List.replicate_succ, List.flatten_cons, wrVals,
      List.filterMap_append] at ih ⊢
    simp [ih]

/-- Helper: a fully successful chunk writes each register exactly once. -/
theorem wrVals_chunkEvs (dsel : Nat) (isWrite : Bool) (r : Reg) (p : Nat × Nat) :
    wrVals r (chunkEvs dsel isWrite p) = [chunkRegVal dsel isWrite r p] := by
  have hd := wrVals_drq_flatten r isWrite p.2
  simp only [wrVals] at hd
  cases r <;>
    simp [chunkEvs, wrVals, chunkRegVal, List.filterMap_append, hd]

/-- Helper: register write values over a successful multi-chunk trace, one
per chunk, in chunk order. -/
theorem wrVals_chunks_flatten (dsel : Nat) (isWrite : Bool) (r : Reg) :
    ∀ pairs : List (Nat × Nat),
      wrVals r ((pairs.map (chunkEvs dsel isWrite)).flatten) =
        pairs.map (chunkRegVal dsel isWrite r) := by
  intro pairs
  induction pairs with
  | nil => rfl
  | cons p ps ih =>
    have h1 := wrVals_chunkEvs dsel isWrite r p
    simp only [wrVals] at h1 ih ⊢
    simp [List.filterMap_append, h1, ih]

/-- Helper: zipping two maps of the same list combines them pointwise. -/
theorem zipWith_map_same {α β γ δ : Type} (f : β → γ → δ) (g : α → β) (h : α → γ) :
    ∀ l : List α, List.zipWith f (l.map g) (l.map h) = l.map fun x => f (g x) (h x) := by
  intro l
  induction l with
  | nil => rfl
  | cons a l ih => simp [ih]

/-- Helper: the four register bytes of a chunk reconstruct its 28-bit
LBA. -/
theorem lba_reconstruct (s dsel : Nat) (hs : s < 2 ^ 28)
    (hd : dsel = 0xE0 ∨ dsel = 0xF0) :
    ((((s >>> 24) &&& 0x0F) ||| dsel) &&& 0x0F) * 2 ^ 24 +
      (((s >>> 16) &&& 0xFF) * 2 ^ 16 + (((s >>> 8) &&& 0xFF) * 2 ^ 8 + (s &&& 0xFF))) = s := by
  have e4 : (0x0F : Nat) = 2 ^ 4 - 1 := by norm_num
  have e8 : (0xFF : Nat) = 2 ^ 8 - 1 := by norm_num
  have h24 : s >>> 24 = s / 2 ^ 24 := Nat.shiftRight_eq_div_pow s 24
  have h16 : s >>> 16 = s / 2 ^ 16 := Nat.shiftRight_eq_div_pow s 16
  have h8 : s >>> 8 = s / 2 ^ 8 := Nat.shiftRight_eq_div_pow s 8
  have ha : s / 2 ^ 24 < 16 := by omega
  have hdev : (s >>> 24) &&& 0x0F = s / 2 ^ 24 := by
    rw [h24, e4, Nat.and_pow_two_sub_one_eq_mod]
    exact Nat.mod_eq_of_lt (by omega)
  have hor : ∀ a, a < 16 → (a ||| dsel) &&& 0x0F = a := by
    intro a haa
    rcases hd with rfl | rfl <;> interval_cases a <;> decide
  rw [hdev, hor _ ha, h16, h8, e8, Nat.and_pow_two_sub_one_eq_mod,
    Nat.and_pow_two_sub_one_eq_mod, Nat.and_pow_two_sub_one_eq_mod]
  omega

/-- Helper: unfolding of a `gogoboot_disk_readwrite` call with a valid disk
number and a nonnegative sector count. -/
theorem readwrite_unfold_valid (ndisks : Nat) (diskSel : Nat → Nat) (disknr : Int)
    (sector : Nat) (count : Nat) (isWrite : Bool) (oracle : Nat → Bool)
    (hd0 : 0 ≤ disknr) (hd1 : disknr < (ndisks : Int)) :
    gogoboot_disk_readwrite ndisks diskSel disknr sector (count : Int) isWrite oracle =
      ((rwChunks (if diskSel disknr.toNat = 0 then 0xE0 else 0xF0) isWrite oracle
          count (sector % 2 ^ 32) count 0).1,
        (rwChunks (if diskSel disknr.toNat = 0 then 0xE0 else 0xF0) isWrite oracle
          count (sector % 2 ^ 32) count 0).2.1) := by
  have hnb : ¬(disknr < 0 ∨ (ndisks : Int) ≤ disknr) := by omega
  unfold gogoboot_disk_readwrite
  rw [if_neg hnb]
  simp only [Int.toNat_natCast]

/-- Helper: with a valid disk number and every wait succeeding, the trace
of a `gogoboot_disk_readwrite` call is the per-chunk events over the chunk
decomposition of the request. -/
theorem rwTrace_all_ok (ndisks : Nat) (diskSel : Nat → Nat) (disknr : Int)
    (sector count : Nat) (isWrite : Bool) (oracle : Nat → Bool)
    (hd0 : 0 ≤ disknr) (hd1 : disknr < (ndisks : Int))
    (hok : ∀ n, oracle n = true) (hsec : sector < 2 ^ 32) :
    rwTrace ndisks diskSel disknr sector (count : Int) isWrite oracle =
      ((chunkPairs count sector count).map
        (chunkEvs (if diskSel disknr.toNat = 0 then 0xE0 else 0xF0) isWrite)).flatten := by
  have hmod : sector % 2 ^ 32 = sector := Nat.mod_eq_of_lt hsec
  unfold rwTrace
  rw [readwrite_unfold_valid ndisks diskSel disknr sector count isWrite oracle hd0 hd1]
  show (rwChunks (if diskSel disknr.toNat = 0 then 0xE0 else 0xF0) isWrite oracle
    count (sector % 2 ^ 32) count 0).2.1 = _
  rw [hmod, rwChunks_all_ok _ isWrite oracle hok count sector count 0 (le_refl count)]

/-- C1 (amended): for every transfer request with a valid disk number,
sector count `N > 0` and all waits succeeding, provided the request lies
within the 28-bit range of the LBA registers (`start + N ≤ 2^28`), the
request is decomposed into chunks whose sizes (decoded from the values
programmed into the sector-count register) sum exactly to `N`, each chunk
is between 1 and 256 sectors with `chunk_k = min(remaining_k, 256)`, and
the chunk start LBAs programmed into the LBA registers cover the interval
`[start, start+N)` contiguously with no gaps and no overlaps. -/
theorem readwrite_chunk_decomposition
    (ndisks : Nat) (diskSel : Nat → Nat) (disknr : Int) (sector count : Nat)
    (isWrite : Bool) (oracle : Nat → Bool)
    (hd0 : 0 ≤ disknr) (hd1 : disknr < (ndisks : Int))
    (hok : ∀ n, oracle n = true)
    (hcount : 0 < count)
    (hrange : sector + count ≤ 2 ^ 28) :
    ((wrVals .nsect (rwTrace ndisks diskSel disknr sector (count : Int) isWrite oracle)).map
        decodeNsect).sum = count ∧
    (∀ c ∈ (wrVals .nsect (rwTrace ndisks diskSel disknr sector (count : Int) isWrite
        oracle)).map decodeNsect, 0 < c ∧ c ≤ 256) ∧
    (wrVals .nsect (rwTrace ndisks diskSel disknr sector (count : Int) isWrite oracle)).map
        decodeNsect =
      (List.range ((count + 255) / 256)).map (fun k => min (count - 256 * k) 256) ∧
    ((lbasOf (rwTrace ndisks diskSel disknr sector (count : Int) isWrite oracle)).zip
        ((wrVals .nsect (rwTrace ndisks diskSel disknr sector (count : Int) isWrite
          oracle)).map decodeNsect)).flatMap
        (fun p => (List.range p.2).map (p.1 + ·)) =
      (List.range count).map (sector + ·) := by
  have hsec : sector < 2 ^ 32 := by omega
  have htr := rwTrace_all_ok ndisks diskSel disknr sector count isWrite oracle hd0 hd1 hok hsec
  have hcp := chunkPairs_closed count count sector (le_refl count) hsec
  have hsz : (wrVals .nsect (rwTrace ndisks diskSel disknr sector (count : Int) isWrite
      oracle)).map decodeNsect = (chunkPairs count sector count).map Prod.snd := by
    rw [htr, wrVals_chunks_flatten, List.map_map]
    apply List.map_congr_left
    intro p hp
    have hb := chunkPairs_size_bounds count count sector p hp
    simp only [Function.comp_apply, chunkRegVal, decodeNsect]
    split_ifs <;> omega
  refine ⟨?_, ?_, ?_, ?_⟩
  · rw [hsz]
    exact chunkPairs_sum count count sector (le_refl count)
  · intro c hc
    rw [hsz] at hc
    obtain ⟨p, hp, rfl⟩ := List.mem_map.mp hc
    exact chunkPairs_size_bounds count count sector p hp
  · rw [hsz, hcp, List.map_map]
    rfl
  · have hdor : (if diskSel disknr.toNat = 0 then 0xE0 else 0xF0) = 0xE0 ∨
        (if diskSel disknr.toNat = 0 then 0xE0 else 0xF0) = 0xF0 := by
      by_cases h : diskSel disknr.toNat = 0 <;> simp [h]
    have hlb : lbasOf (rwTrace ndisks diskSel disknr sector (count : Int) isWrite oracle) =
        (chunkPairs count sector count).map Prod.fst := by
      unfold lbasOf
      rw [htr, wrVals_chunks_flatten, wrVals_chunks_flatten, wrVals_chunks_flatten,
        wrVals_chunks_flatten, zipWith_map_same, zipWith_map_same, zipWith_map_same]
      apply List.map_congr_left
      intro p hp
      have hp1 : p.1 < 2 ^ 28 := by
        rw [hcp] at hp
        obtain ⟨k, hk, rfl⟩ := List.mem_map.mp hp
        have hkn : k < (count + 255) / 256 := List.mem_range.mp hk
        have hkc : 256 * k < count := by omega
        show (sector + 256 * k) % 2 ^ 32 < 2 ^ 28
        rw [Nat.mod_eq_of_lt (by omega)]
        omega
      simp only [chunkRegVal]
      exact lba_reconstruct p.1 _ hp1 hdor
    rw [hlb, hsz, List.zip_map']
    have hid : (chunkPairs count sector count).map (fun x => (x.1, x.2)) =
        chunkPairs count sector count := by simp
    rw [hid]
    exact chunkPairs_cover count count sector (le_refl count) hrange

/-- Counterexample for C1 as stated: for the request starting at sector
`0x10000000 = 2^28` with `N = 1` (valid disk, all waits succeeding), the
LBA registers can only hold 28 bits, so the programmed chunk LBA is 0 and
the programmed chunks do not cover `[start, start+N)`. -/
theorem readwrite_chunk_decomposition_counterexample :
    ((lbasOf (rwTrace 1 (fun _ => 0) 0 0x10000000 (1 : Int) false (fun _ => true))).zip
        ((wrVals .nsect (rwTrace 1 (fun _ => 0) 0 0x10000000 (1 : Int) false
          (fun _ => true))).map decodeNsect)).flatMap
        (fun p => (List.range p.2).map (p.1 + ·)) ≠
      (List.range 1).map (0x10000000 + ·) := by
  decide

/-- Witness for C1: a 300-sector request starting at LBA 100 decomposes
into chunks whose programmed sizes sum to 300. -/
theorem readwrite_chunk_decomposition_witness :
    ((wrVals .nsect (rwTrace 1 (fun _ => 0) 0 100 (300 : Int) false (fun _ => true))).map
        decodeNsect).sum = 300 :=
  (readwrite_chunk_decomposition 1 (fun _ => 0) 0 100 300 false (fun _ => true)
    (by decide) (by decide) (fun _ => rfl) (by decide) (by decide)).1

/-- C5: for every chunk of a transfer with a valid disk number and all
waits succeeding, the device-select register receives the top LBA nibble
`(s >> 24) & 0x0F` OR'd with 0xE0 for the first device and 0xF0 for the
second, the high/mid/low LBA registers receive bits 23-16, 15-8 and 7-0 of
the chunk's sector `s = (start + 256k) mod 2^32`, and the sector-count
register receives the chunk size with 256 encoded as 0. -/
theorem readwrite_programs_registers
    (ndisks : Nat) (diskSel : Nat → Nat) (disknr : Int) (sector count : Nat)
    (isWrite : Bool) (oracle : Nat → Bool)
    (hd0 : 0 ≤ disknr) (hd1 : disknr < (ndisks : Int))
    (hok : ∀ n, oracle n = true)
    (hsec : sector < 2 ^ 32) :
    wrVals .device (rwTrace ndisks diskSel disknr sector (count : Int) isWrite oracle) =
      (List.range ((count + 255) / 256)).map (fun k =>
        ((((sector + 256 * k) % 2 ^ 32) >>> 24) &&& 0x0F) |||
          (if diskSel disknr.toNat = 0 then 0xE0 else 0xF0)) ∧
    wrVals .lbah (rwTrace ndisks diskSel disknr sector (count : Int) isWrite oracle) =
      (List.range ((count + 255) / 256)).map (fun k =>
        (((sector + 256 * k) % 2 ^ 32) >>> 16) &&& 0xFF) ∧
    wrVals .lbam (rwTrace ndisks diskSel disknr sector (count : Int) isWrite oracle) =
      (List.range ((count + 255) / 256)).map (fun k =>
        (((sector + 256 * k) % 2 ^ 32) >>> 8) &&& 0xFF) ∧
    wrVals .lbal (rwTrace ndisks diskSel disknr sector (count : Int) isWrite oracle) =
      (List.range ((count + 255) / 256)).map (fun k =>
        ((sector + 256 * k) % 2 ^ 32) &&& 0xFF) ∧
    wrVals .nsect (rwTrace ndisks diskSel disknr sector (count : Int) isWrite oracle) =
      (List.range ((count + 255) / 256)).map (fun k =>
        if min (count - 256 * k) 256 = 256 then 0 else min (count - 256 * k) 256) := by
  have htr := rwTrace_all_ok ndisks diskSel disknr sector count isWrite oracle hd0 hd1 hok hsec
  have hcp := chunkPairs_closed count count sector (le_refl count) hsec
  refine ⟨?_, ?_, ?_, ?_, ?_⟩ <;>
    · rw [htr, wrVals_chunks_flatten, hcp, List.map_map]
      rfl

/-- Witness for C5: for the first device and LBA `0x01234567` the device
register receives `0xE0 | 0x01`, and for the second device `0xF0 | 0x01`. -/
theorem readwrite_programs_registers_witness :
    wrVals .device (rwTrace 1 (fun _ => 0) 0 0x01234567 (1 : Int) false (fun _ => true)) =
      [0xE0 ||| 0x01] ∧
    wrVals .device (rwTrace 1 (fun _ => 1) 0 0x01234567 (1 : Int) false (fun _ => true)) =
      [0xF0 ||| 0x01] :=
  ⟨((readwrite_programs_registers 1 (fun _ => 0) 0 0x01234567 1 false (fun _ => true)
      (by decide) (by decide) (fun _ => rfl) (by decide)).1).trans (by decide),
    ((readwrite_programs_registers 1 (fun _ => 1) 0 0x01234567 1 false (fun _ => true)
      (by decide) (by decide) (fun _ => rfl) (by decide)).1).trans (by decide)⟩

/-- Helper: prepending failed-wait-free events preserves the aborted-trace
shape. -/
theorem endsWithFailedWait_append (l m : List Ev)
    (hl : ∀ b, Ev.waited b false ∉ l) (hm : endsWithFailedWait m) :
    endsWithFailedWait (l ++ m) := by
  obtain ⟨tr, b, rfl, hnb⟩ := hm
  refine ⟨l ++ tr, b, by simp, ?_⟩
  intro b'
  simp only [List.mem_append, not_or]
  exact ⟨hl b', hnb b'⟩

/-- Helper: a lone failed wait is an aborted trace. -/
theorem endsWithFailedWait_single (b : Nat) :
    endsWithFailedWait [Ev.waited b false] :=
  ⟨[], b, rfl, by simp⟩

/-- Helper: prepending one event that is not a failed wait preserves the
aborted-trace shape. -/
theorem endsWithFailedWait_cons (e : Ev) (tr : List Ev)
    (he : ∀ b, e ≠ Ev.waited b false) (h : endsWithFailedWait tr) :
    endsWithFailedWait (e :: tr) := by
  obtain ⟨tr', b, rfl, hnb⟩ := h
  refine ⟨e :: tr', b, rfl, ?_⟩
  intro b'
  simp only [List.mem_cons, not_or]
  exact ⟨fun hh => he b' hh.symm, hnb b'⟩

/-- Helper: a failing per-sector loop stops at its failed DATAREQUEST wait,
and a succeeding one contains no failed wait. -/
theorem sectorLoop_fail_shape (isWrite : Bool) (oracle : Nat → Bool) :
    ∀ nsect widx,
      ((sectorLoop isWrite oracle widx nsect).1 = false →
        endsWithFailedWait (sectorLoop isWrite oracle widx nsect).2.1) ∧
      ((sectorLoop isWrite oracle widx nsect).1 = true →
        ∀ b, Ev.waited b false ∉ (sectorLoop isWrite oracle widx nsect).2.1) := by
  intro nsect
  induction nsect with
  | zero =>
    intro widx
    constructor
    · intro h; simp [sectorLoop] at h
    · intro _ b; simp [sectorLoop]
  | succ n ih =>
    intro widx
    by_cases ho : oracle widx = true
    · constructor
      · intro h
        simp only [sectorLoop, ho, if_true] at h ⊢
        exact endsWithFailedWait_append
          [Ev.waited IDE_STATUS_DATAREQUEST true, Ev.xfer isWrite] _
          (by intro b; simp) ((ih (widx + 1)).1 h)
      · intro h b
        simp only [sectorLoop, ho, if_true] at h ⊢
        have hr := (ih (widx + 1)).2 h b
        simp [hr]
    · constructor
      · intro _
        simp only [sectorLoop, ho, if_false]
        exact endsWithFailedWait_single IDE_STATUS_DATAREQUEST
      · intro h
        simp [sectorLoop, ho] at h

/-- Helper: a failing outer loop stops at its failed wait (READY or
DATAREQUEST), and a succeeding one contains no failed wait. -/
theorem rwChunks_fail_shape (dsel : Nat) (isWrite : Bool) (oracle : Nat → Bool) :
    ∀ fuel sector count widx,
      ((rwChunks dsel isWrite oracle fuel sector count widx).1 = false →
        endsWithFailedWait (rwChunks dsel isWrite oracle fuel sector count widx).2.1) ∧
      ((rwChunks dsel isWrite oracle fuel sector count widx).1 = true →
        ∀ b, Ev.waited b false ∉ (rwChunks dsel isWrite oracle fuel sector count widx).2.1) := by
  intro fuel
  induction fuel with
  | zero =>
    intro sector count widx
    constructor
    · intro h; simp [rwChunks] at h
    · intro _ b; simp [rwChunks]
  | succ fuel ih =>
    intro sector count widx
    by_cases h0 : count = 0
    · subst h0
      constructor
      · intro h; simp [rwChunks] at h
      · intro _ b; simp [rwChunks]
    · by_cases ho : oracle widx = true
      · by_cases hin : (sectorLoop isWrite oracle (widx + 1)
            (if 256 ≤ count then 256 else count)).1 = true
        · constructor
          · intro h
            simp only [rwChunks, if_neg h0, ho, if_true, hin] at h ⊢
            have hi := (sectorLoop_fail_shape isWrite oracle _ (widx + 1)).2 hin
            refine endsWithFailedWait_append _ _ ?_ ((ih _ _ _).1 h)
            intro b
            simp [List.mem_append, hi b]
          · intro h b
            simp only [rwChunks, if_neg h0, ho, if_true, hin] at h ⊢
            have hi := (sectorLoop_fail_shape isWrite oracle _ (widx + 1)).2 hin b
            have hr := (ih _ _ _).2 h b
            simp [List.mem_append, hi]
            simpa using hr
        · have hinf : (sectorLoop isWrite oracle (widx + 1)
              (if 256 ≤ count then 256 else count)).1 = false := by
            revert hin
            cases (sectorLoop isWrite oracle (widx + 1) (if 256 ≤ count then 256 else count)).1 <;>
              simp
          constructor
          · intro _
            simp only [rwChunks, if_neg h0, ho, if_true, hinf]
            refine endsWithFailedWait_append _ _ (by intro b; simp) ?_
            refine endsWithFailedWait_cons _ _ (by intro b; simp) ?_
            refine endsWithFailedWait_cons _ _ (by intro b; simp) ?_
            exact (sectorLoop_fail_shape isWrite oracle _ (widx + 1)).1 hinf
          · intro h
            simp only [rwChunks, if_neg h0, ho, if_true, hinf] at h
            exact absurd h (by simp)
      · have hof : oracle widx = false := by
          revert ho; cases oracle widx <;> simp
        constructor
        · intro _
          simp only [rwChunks, if_neg h0, hof]
          exact endsWithFailedWait_append _ _ (by intro b; simp)
            (endsWithFailedWait_single IDE_STATUS_READY)
        · intro h
          simp only [rwChunks, if_neg h0, hof] at h
          exact absurd h (by simp)

/-- C2: any failed READY or DATAREQUEST wait makes the multi-sector
operation return false immediately — its trace ends at the failed wait, so
no further ATA command is issued and no further sector is transferred (and
a successful run contains no failed wait at all); in particular, for a
concrete 3-chunk request (600 sectors) whose wait oracle reports READY for
the first chunk but never DATAREQUEST, the call returns failure with
exactly one command byte written and zero sectors transferred, the boolean
result carrying no partial-completion count. -/
theorem readwrite_abort_on_failed_wait :
    (∀ dsel isWrite oracle fuel sector count widx,
      ((rwChunks dsel isWrite oracle fuel sector count widx).1 = false →
        endsWithFailedWait (rwChunks dsel isWrite oracle fuel sector count widx).2.1) ∧
      ((rwChunks dsel isWrite oracle fuel sector count widx).1 = true →
        ∀ b, Ev.waited b false ∉ (rwChunks dsel isWrite oracle fuel sector count widx).2.1)) ∧
    ((gogoboot_disk_readwrite 1 (fun _ => 0) 0 0 600 false (fun n => n == 0)).1 = false ∧
      (wrVals .command (rwTrace 1 (fun _ => 0) 0 0 600 false (fun n => n == 0))).length = 1 ∧
      xferCount (rwTrace 1 (fun _ => 0) 0 0 600 false (fun n => n == 0)) = 0) :=
  ⟨fun dsel isWrite oracle fuel sector count widx =>
    rwChunks_fail_shape dsel isWrite oracle fuel sector count widx,
    by decide⟩

/-- Witness for C2: a one-sector request whose READY wait fails produces an
aborted trace ending at the failed wait. -/
theorem readwrite_abort_on_failed_wait_witness :
    endsWithFailedWait (rwChunks 0xE0 false (fun _ => false) 1 0 1 0).2.1 :=
  (readwrite_abort_on_failed_wait.1 0xE0 false (fun _ => false) 1 0 1 0).1 (by decide)

/-- C8: for every out-of-range disk index — negative, equal to the disk
count, or larger — both `gogoboot_disk_read` and `gogoboot_disk_write`
return failure with an empty access trace: no register of any controller
is read or written. -/
theorem readwrite_bad_index_no_access (ndisks : Nat) (diskSel : Nat → Nat)
    (disknr : Int) (sector : Nat) (sector_count : Int) (oracle : Nat → Bool)
    (hbad : disknr < 0 ∨ (ndisks : Int) ≤ disknr) :
    gogoboot_disk_read ndisks diskSel disknr sector sector_count oracle = (false, []) ∧
    gogoboot_disk_write ndisks diskSel disknr sector sector_count oracle = (false, []) := by
  refine ⟨?_, ?_⟩
  · unfold gogoboot_disk_read gogoboot_disk_readwrite
    rw [if_pos hbad]
  · unfold gogoboot_disk_write gogoboot_disk_readwrite
    rw [if_pos hbad]

/-- Witness for C8: with two registered disks, index 2 (equal to the disk
count) and index -1 both fail without touching a register. -/
theorem readwrite_bad_index_no_access_witness :
    gogoboot_disk_read 2 (fun _ => 0) 2 5 (3 : Int) (fun _ => true) = (false, []) ∧
    gogoboot_disk_write 2 (fun _ => 0) (-1) 5 (3 : Int) (fun _ => true) = (false, []) :=
  ⟨(readwrite_bad_index_no_access 2 (fun _ => 0) 2 5 3 (fun _ => true)
      (Or.inr (by decide))).1,
    (readwrite_bad_index_no_access 2 (fun _ => 0) (-1) 5 3 (fun _ => true)
      (Or.inl (by decide))).2⟩

/-- C10: for every valid disk index and every sector count at most zero
(the count parameter is a signed int), both entry points return success
immediately with an empty access trace: the while loop runs zero times and
no hardware register is read or written. -/
theorem readwrite_nonpositive_count_success (ndisks : Nat) (diskSel : Nat → Nat)
    (disknr : Int) (sector : Nat) (sector_count : Int) (oracle : Nat → Bool)
    (hd0 : 0 ≤ disknr) (hd1 : disknr < (ndisks : Int))
    (hcnt : sector_count ≤ 0) :
    gogoboot_disk_read ndisks diskSel disknr sector sector_count oracle = (true, []) ∧
    gogoboot_disk_write ndisks diskSel disknr sector sector_count oracle = (true, []) := by
  have hnb : ¬(disknr < 0 ∨ (ndisks : Int) ≤ disknr) := by omega
  have ht : sector_count.toNat = 0 := by omega
  refine ⟨?_, ?_⟩
  · simp [gogoboot_disk_read, gogoboot_disk_readwrite, hnb, ht, rwChunks]
  · simp [gogoboot_disk_write, gogoboot_disk_readwrite, hnb, ht, rwChunks]

/-- Witness for C10: a valid disk with sector counts -3 and 0. -/
theorem readwrite_nonpositive_count_success_witness :
    gogoboot_disk_read 1 (fun _ => 0) 0 5 (-3 : Int) (fun _ => true) = (true, []) ∧
    gogoboot_disk_write 1 (fun _ => 0) 0 5 0 (fun _ => true) = (true, []) :=
  ⟨(readwrite_nonpositive_count_success 1 (fun _ => 0) 0 5 (-3) (fun _ => true)
      (by decide) (by decide) (by decide)).1,
    (readwrite_nonpositive_count_success 1 (fun _ => 0) 0 5 0 (fun _ => true)
      (by decide) (by decide) (by decide)).2⟩
